import Mathlib

/-!
Verification of the concurrency and resilience core of the
semantic-entity-matching repository: the adaptive concurrency gate
(src/lib/dynamic_semaphore.py), the batch scheduler
(src/lib/async_batch_processor.py) and the bulk-indexing error triage
(src/lib/ingest.py), shallowly embedded in Lean.
-/

namespace SemanticEntityMatching

/- ===== Adaptive concurrency gate: src/lib/dynamic_semaphore.py ===== -/

/-- Python int() truncation toward zero, on exact rationals. -/
def pyTrunc (q : ℚ) : ℤ := if q < 0 then ⌈q⌉ else ⌊q⌋

/-- State of DynamicSemaphore (src/lib/dynamic_semaphore.py, lines 54-63).
Python integers are modelled by Int; the decrease_factor float is modelled by
an exact rational (the concrete factors used in counterexamples below are
dyadic, where Python float arithmetic is exact). -/
structure DynamicSemaphore where
  capacity : ℤ
  min_value : ℤ
  increase_threshold : ℤ
  decrease_factor : ℚ
  success_count : ℤ
  current_count : ℤ
deriving DecidableEq

/-- DynamicSemaphore construction (lines 29-63): parameter validation and the
field assignments, with the increase_threshold default of 10 times the
starting capacity. -/
def mkDynamicSemaphore (decrease_factor : ℚ) (increase_threshold : Option ℤ)
    (initial : ℤ) (min_value : ℤ) : Except String DynamicSemaphore :=
  if ¬(0 < decrease_factor ∧ decrease_factor < 1) then
    Except.error "decrease_factor must be between 0 and 1"
  else if initial < min_value then
    Except.error "initial must be at least min_value"
  else
    Except.ok
      { capacity := initial
        min_value := min_value
        increase_threshold := increase_threshold.getD (initial * 10)
        decrease_factor := decrease_factor
        success_count := 0
        current_count := 0 }

/-- acquire (lines 65-70): the increment performed once the wait condition
current_count < capacity holds; the condition itself appears as the guard of
the acquire step in the reachability relation below. -/
def acquire (s : DynamicSemaphore) : DynamicSemaphore :=
  { s with current_count := s.current_count + 1 }

/-- release (lines 72-77): unconditional decrement. -/
def release (s : DynamicSemaphore) : DynamicSemaphore :=
  { s with current_count := s.current_count - 1 }

/-- on_throttle (lines 86-98): multiplicative decrease with clamping at
min_value, applied only when it strictly lowers capacity, in which case the
success counter is reset. -/
def onThrottle (s : DynamicSemaphore) : DynamicSemaphore :=
  let new_capacity := max s.min_value (pyTrunc ((s.capacity : ℚ) * s.decrease_factor))
  if new_capacity < s.capacity then
    { s with capacity := new_capacity, success_count := 0 }
  else s

/-- on_success (lines 100-118): increment the success counter; once it reaches
increase_threshold, grow capacity by one and reset the counter. -/
def onSuccess (s : DynamicSemaphore) : DynamicSemaphore :=
  let s1 := { s with success_count := s.success_count + 1 }
  if s1.increase_threshold ≤ s1.success_count then
    { s1 with capacity := s1.capacity + 1, success_count := 0 }
  else s1

/-- Quiescent-point reachability: the states a gate can pass through under any
interleaving of its four operations, with acquire enabled only under its wait
condition current_count < capacity. -/
inductive Reachable (s0 : DynamicSemaphore) : DynamicSemaphore → Prop
  | refl : Reachable s0 s0
  | acquireStep {s} : Reachable s0 s → s.current_count < s.capacity →
      Reachable s0 (acquire s)
  | releaseStep {s} : Reachable s0 s → Reachable s0 (release s)
  | throttleStep {s} : Reachable s0 s → Reachable s0 (onThrottle s)
  | successStep {s} : Reachable s0 s → Reachable s0 (onSuccess s)

/- ===== Batch scheduler: src/lib/async_batch_processor.py ===== -/

/-- RetryStrategy enum (lines 25-32). -/
inductive RetryStrategy
  | none
  | immediate
  | fixed
  | exponential
  | jittered
deriving DecidableEq

/-- ProcessorConfig (lines 35-50). The retryable field models the combination
of the truthiness test on retryable_exceptions and the isinstance check of
lines 183-185 (an empty tuple makes the predicate constantly false); the
is_throttling field models the configured checker or the default ClientError
code test of lines 218-226. on_progress, when present, is modelled by which
invocations of the callback raise: the map sends the invocation number to true
when that call raises. -/
structure ProcessorConfig (ε : Type) where
  max_attempts : ℤ
  num_workers : ℤ
  retry_strategy : RetryStrategy
  handle_throttling : Bool
  on_progress : Option (ℕ → Bool)
  retryable : ε → Bool
  is_throttling : ε → Bool

/-- WorkItem (lines 53-59). -/
structure WorkItem (α : Type) where
  index : ℕ
  data : α
  remaining_attempts : ℤ
deriving DecidableEq

/-- ProcessorResult (lines 62-69). A slot value of Option.none models a slot
still holding the pre-fill None. -/
structure ProcessorResult (β ε : Type) where
  results : List (Option (Except ε β))
  total_processed : ℤ
  total_failed : ℕ
  total_retried : ℕ

/-- Worker-shared state during a run: the pre-allocated results list, the
_total_retried and _total_failed counters (lines 108-110), and
progress-callback bookkeeping (invocations made; ticks that completed without
raising). -/
structure RunState (β ε : Type) where
  results : List (Option (Except ε β))
  total_retried : ℕ
  failed_ctr : ℕ
  calls : ℕ
  ticks : ℕ

/-- The two possible outcomes of _handle_retryable_error for the work item:
put back on the queue, or recorded as a terminal failure. -/
inductive RetryDecision
  | requeue
  | terminal
deriving DecidableEq

/-- The should_retry computation of _handle_retryable_error (lines 236-240). -/
def shouldRetry (cfg : ProcessorConfig ε) (throttled : Bool) (remaining : ℤ) : Bool :=
  if throttled then cfg.handle_throttling && decide (1 < remaining)
  else decide (1 < remaining)

/-- The decision taken by _handle_retryable_error (lines 228-262): the
RetryStrategy.NONE early return, then the should_retry branch. -/
def handleRetryableError (cfg : ProcessorConfig ε) (throttled : Bool) (remaining : ℤ) :
    RetryDecision :=
  if cfg.retry_strategy = RetryStrategy.none then RetryDecision.terminal
  else if shouldRetry cfg throttled remaining then RetryDecision.requeue
  else RetryDecision.terminal

/-- Success path of _worker (lines 168-179): write the output into the slot of
the item, then invoke the progress callback inside the exception-swallowing
try block; a raising callback leaves everything but the bookkeeping alone. -/
def successUpdate (cfg : ProcessorConfig ε) (st : RunState β ε) (i : ℕ) (b : β) :
    RunState β ε :=
  let st1 := { st with results := st.results.set i (some (Except.ok b)) }
  match cfg.on_progress with
  | Option.none => st1
  | some raises =>
      { st1 with
        calls := st1.calls + 1
        ticks := st1.ticks + (if raises st1.calls then 0 else 1) }

/-- Terminal-failure path (lines 190-193 and 229-233, 258-262): store the
exception in the slot and bump the failure counter. -/
def terminalUpdate (st : RunState β ε) (i : ℕ) (e : ε) : RunState β ε :=
  { st with
    results := st.results.set i (some (Except.error e))
    failed_ctr := st.failed_ctr + 1 }

/-- One complete attempt of one dequeued work item (the body of the _worker
loop, lines 162-196, with _handle_retryable_error inlined): returns the queue
left behind (with the item re-enqueued at the tail after a retry decision,
its remaining_attempts decremented, and total_retried bumped) together with the
updated shared state. The operation op receives the item index, payload and
remaining_attempts, so ops whose outcome varies between attempts are covered. -/
def stepItem (cfg : ProcessorConfig ε) (op : ℕ → α → ℤ → Except ε β)
    (w : WorkItem α) (rest : List (WorkItem α)) (st : RunState β ε) :
    List (WorkItem α) × RunState β ε :=
  match op w.index w.data w.remaining_attempts with
  | Except.ok b => (rest, successUpdate cfg st w.index b)
  | Except.error e =>
      if cfg.retryable e then
        match handleRetryableError cfg (cfg.is_throttling e) w.remaining_attempts with
        | RetryDecision.requeue =>
            (rest ++ [{ w with remaining_attempts := w.remaining_attempts - 1 }],
             { st with total_retried := st.total_retried + 1 })
        | RetryDecision.terminal => (rest, terminalUpdate st w.index e)
      else (rest, terminalUpdate st w.index e)

/-- Termination measure of a queue: every item can be attempted at most once
more than its remaining_attempts. -/
def itemWeight (w : WorkItem α) : ℕ := w.remaining_attempts.toNat + 1

def queueMeasure (q : List (WorkItem α)) : ℕ := (q.map itemWeight).sum

/-- Fuel-indexed execution of the worker pool over the shared queue. The
schedule sched abstracts the cooperative interleaving of the workers: at each
step it selects which queued item next reaches its terminal write or
re-enqueue (with one worker this is the FIFO order sched = 0; with several
workers any queued item can be the next to finish an attempt, since each
attempt only touches its own slot and the shared counters atomically between
suspension points). A fuel of queueMeasure always suffices to drain the
queue. -/
def runQueueFuel (cfg : ProcessorConfig ε) (op : ℕ → α → ℤ → Except ε β)
    (sched : ℕ → ℕ) : ℕ → ℕ → List (WorkItem α) → RunState β ε → RunState β ε
  | 0, _, _, st => st
  | fuel + 1, t, q, st =>
      match q.rotate (sched t % q.length) with
      | [] => st
      | w :: rest =>
          let p := stepItem cfg op w rest st
          runQueueFuel cfg op sched fuel (t + 1) p.1 p.2

def runQueue (cfg : ProcessorConfig ε) (op : ℕ → α → ℤ → Except ε β)
    (sched : ℕ → ℕ) (q : List (WorkItem α)) (st : RunState β ε) : RunState β ε :=
  runQueueFuel cfg op sched (queueMeasure q) 0 q st

/-- Queue pre-fill (process, lines 122-130): one WorkItem per input at its
original position, with remaining_attempts = max_attempts. -/
def buildQueue (ma : ℤ) : ℕ → List α → List (WorkItem α)
  | _, [] => []
  | i, x :: xs =>
      { index := i, data := x, remaining_attempts := ma } :: buildQueue ma (i + 1) xs

/-- isinstance(result, Exception) on a result slot (line 141): stored errors
are Exception instances, an unset slot (None) is not one, and a stored success
value is one exactly when the output value itself is an Exception instance,
which the predicate exc_instance decides. -/
def isExceptionInstance (exc_instance : β → Bool) : Option (Except ε β) → Bool
  | some (Except.ok b) => exc_instance b
  | some (Except.error _) => true
  | Option.none => false

/-- AsyncBatchProcessor.process (lines 112-148): pre-allocate the results
list, fill the queue, run the workers, then recompute total_failed as the
number of slots holding an Exception instance and derive total_processed from
it. -/
def process (cfg : ProcessorConfig ε) (op : ℕ → α → ℤ → Except ε β)
    (exc_instance : β → Bool) (sched : ℕ → ℕ) (items : List α) :
    ProcessorResult β ε :=
  let st0 : RunState β ε :=
    { results := List.replicate items.length Option.none
      total_retried := 0
      failed_ctr := 0
      calls := 0
      ticks := 0 }
  let st := runQueue cfg op sched (buildQueue cfg.max_attempts 0 items) st0
  let total_failed := (st.results.filter (isExceptionInstance exc_instance)).length
  { results := st.results
    total_processed := (items.length : ℤ) - total_failed
    total_failed := total_failed
    total_retried := st.total_retried }

/-- Replacing only the progress callback of a configuration. -/
def withProgress (cfg : ProcessorConfig ε) (p : Option (ℕ → Bool)) : ProcessorConfig ε :=
  { cfg with on_progress := p }

/-- Invariant of the running scheduler: the results list keeps its pre-fill
length, every queued index is in range, and every slot is either already
written or still owned by a queued item. -/
def Covered (N : ℕ) (q : List (WorkItem α)) (res : List (Option (Except ε β))) : Prop :=
  res.length = N ∧ (∀ w ∈ q, w.index < N) ∧
    ∀ i, i < N → (∃ v, res[i]? = some (some v)) ∨ ∃ w ∈ q, w.index = i

/- ===== Bulk indexing: src/lib/ingest.py ===== -/

/-- A per-item error object of a bulk response (type and reason keys). -/
structure BulkError where
  typ : String
  reason : String
deriving DecidableEq

/-- The create object of a bulk response item. -/
structure BulkCreateResult where
  id : String
  error : Option BulkError
deriving DecidableEq

/-- One element of the items array of a bulk response; create may be absent. -/
structure BulkResponseItem where
  create : Option BulkCreateResult
deriving DecidableEq

/-- A bulk response: the errors flag and the per-item results. -/
structure BulkResponse where
  errors : Bool
  items : List BulkResponseItem
deriving DecidableEq

/-- The non-ignorable per-item errors collected by the loop of
_parse_bulk_errors (lines 81-101): items lacking a create result or an error
are skipped, and version_conflict_engine_exception is ignorable. -/
def nonIgnorableErrors (items : List BulkResponseItem) : List BulkError :=
  items.filterMap fun it =>
    match it.create with
    | Option.none => Option.none
    | some c =>
        match c.error with
        | Option.none => Option.none
        | some e =>
            if e.typ = "version_conflict_engine_exception" then Option.none
            else some e

/-- _parse_bulk_errors (lines 68-109): returns normally when the errors flag
is unset or only ignorable errors occurred; raises a plain Exception when at
least one non-ignorable error was accumulated (the raised message also lists
the error kinds, on which no claim depends). -/
def parseBulkErrors (resp : BulkResponse) (batch_num : ℕ) : Except String Unit :=
  if !resp.errors then Except.ok ()
  else if 0 < (nonIgnorableErrors resp.items).length then
    Except.error ("Batch " ++ toString batch_num ++ " has errors")
  else Except.ok ()

/-- Exceptions that can reach the scheduler from the per-batch operation of
ingest: botocore ClientError instances (carrying an error code) raised by the
transport, and the plain Exception raised by _parse_bulk_errors (line 109). -/
inductive IngestError
  | clientError (code : String)
  | batchError (msg : String)
deriving DecidableEq

/-- isinstance(e, retryable_exceptions) with the default
retryable_exceptions = (ClientError,) set by ProcessorConfig.__post_init__
(lines 48-50): a plain Exception is not a ClientError. -/
def ingestRetryable : IngestError → Bool
  | IngestError.clientError _ => true
  | IngestError.batchError _ => false

/-- The default throttling test (lines 221-224): a ClientError whose error
code is ThrottlingException. -/
def ingestIsThrottling : IngestError → Bool
  | IngestError.clientError code => code == "ThrottlingException"
  | IngestError.batchError _ => false

/-- The ProcessorConfig built by ingest (lines 174-179): explicit max_attempts,
num_workers 10, handle_throttling true, a progress callback present, and the
defaults for retry_strategy (jittered) and retryable_exceptions. -/
def ingestConfig (max_attempts : ℤ) : ProcessorConfig IngestError :=
  { max_attempts := max_attempts
    num_workers := 10
    retry_strategy := RetryStrategy.jittered
    handle_throttling := true
    on_progress := some (fun _ => false)
    retryable := ingestRetryable
    is_throttling := ingestIsThrottling }

/-- process_batch (lines 157-169) reduced to its scheduler-visible behavior on
a fixed bulk response: it raises exactly when _parse_bulk_errors raises, and
what it raises is a plain Exception. -/
def processBatchModel (resp : BulkResponse) (batch_num : ℕ) : Except IngestError Unit :=
  match parseBulkErrors resp batch_num with
  | Except.error msg => Except.error (IngestError.batchError msg)
  | Except.ok _ => Except.ok ()

/-- A bulk response carrying a single non-ignorable per-item error. -/
def c6ItemError : BulkError :=
  { typ := "mapper_parsing_exception", reason := "failed to parse field" }

def c6Response : BulkResponse :=
  { errors := true
    items := [{ create := some { id := "0", error := some c6ItemError } }] }

/- ===== Concrete instances used by counterexamples and witnesses ===== -/

/-- A gate with starting capacity 4 and the default parameters (min_value 1,
decrease_factor one half). -/
def c4Gate : DynamicSemaphore :=
  { capacity := 4, min_value := 1, increase_threshold := 40, decrease_factor := 1/2,
    success_count := 0, current_count := 0 }

/-- The state reached from c4Gate by four acquires followed by one throttle. -/
def c4Bad : DynamicSemaphore := onThrottle (acquire (acquire (acquire (acquire c4Gate))))

/-- A gate with starting capacity 10, min_value 1 and decrease_factor 3/4, a
factor exactly representable in binary floating point, so the Python float
computation agrees with the exact rational one on the trace used below. -/
def c2Gate : DynamicSemaphore :=
  { capacity := 10, min_value := 1, increase_threshold := 100, decrease_factor := 3/4,
    success_count := 0, current_count := 0 }

/-- A gate with starting capacity 10 and increase_threshold 5. -/
def c5Gate : DynamicSemaphore :=
  { capacity := 10, min_value := 1, increase_threshold := 5, decrease_factor := 1/2,
    success_count := 0, current_count := 0 }

/-- A small concrete scheduler configuration over a unit error type. -/
def witCfg : ProcessorConfig Unit :=
  { max_attempts := 3
    num_workers := 1
    retry_strategy := RetryStrategy.jittered
    handle_throttling := true
    on_progress := Option.none
    retryable := fun _ => true
    is_throttling := fun _ => false }

/-- A fresh run state for one item over naturals and a unit error type. -/
def wit0 : RunState ℕ Unit :=
  { results := [Option.none], total_retried := 0, failed_ctr := 0, calls := 0, ticks := 0 }

/-- The gate produced by construction with factor one half, initial 1 and
min_value 0 (the unchecked precondition). -/
def c10Gate : DynamicSemaphore :=
  { capacity := 1, min_value := 0, increase_threshold := 10, decrease_factor := 1/2,
    success_count := 0, current_count := 0 }

/- ===== Theorems: adaptive concurrency gate ===== -/

theorem pyTrunc_of_nonneg {q : ℚ} (h : 0 ≤ q) : pyTrunc q = ⌊q⌋ := by
  unfold pyTrunc
  rw [if_neg (not_lt.mpr h)]

theorem onThrottle_def (s : DynamicSemaphore) :
    onThrottle s =
      if max s.min_value (pyTrunc ((s.capacity : ℚ) * s.decrease_factor)) < s.capacity then
        { s with
          capacity := max s.min_value (pyTrunc ((s.capacity : ℚ) * s.decrease_factor))
          success_count := 0 }
      else s := rfl

theorem onThrottle_min_value (s : DynamicSemaphore) :
    (onThrottle s).min_value = s.min_value := by
  rw [onThrottle_def]; split <;> rfl

theorem onThrottle_decrease_factor (s : DynamicSemaphore) :
    (onThrottle s).decrease_factor = s.decrease_factor := by
  rw [onThrottle_def]; split <;> rfl

theorem min_le_onThrottle_capacity (s : DynamicSemaphore)
    (hc : s.min_value ≤ s.capacity) : s.min_value ≤ (onThrottle s).capacity := by
  rw [onThrottle_def]; split
  · exact le_max_left _ _
  · exact hc

/-- On a state whose capacity is at least max(min_value, 1), the guarded
on_throttle update coincides with the unguarded clamped floor. -/
theorem onThrottle_capacity_eq (s : DynamicSemaphore)
    (hm : 1 ≤ s.min_value) (hc : s.min_value ≤ s.capacity)
    (hf0 : 0 < s.decrease_factor) (hf1 : s.decrease_factor < 1) :
    (onThrottle s).capacity = max s.min_value ⌊(s.capacity : ℚ) * s.decrease_factor⌋ := by
  have hcpos : (0 : ℤ) < s.capacity := by omega
  have hcq : (0 : ℚ) < (s.capacity : ℚ) := by exact_mod_cast hcpos
  have hq0 : (0 : ℚ) ≤ (s.capacity : ℚ) * s.decrease_factor :=
    mul_nonneg (le_of_lt hcq) (le_of_lt hf0)
  have hfl : ⌊(s.capacity : ℚ) * s.decrease_factor⌋ < s.capacity := by
    rw [Int.floor_lt]
    calc (s.capacity : ℚ) * s.decrease_factor
        < (s.capacity : ℚ) * 1 := mul_lt_mul_of_pos_left hf1 hcq
      _ = (s.capacity : ℚ) := mul_one _
  rw [onThrottle_def, pyTrunc_of_nonneg hq0]
  split
  · rfl
  · next hge =>
      have h1 : max s.min_value ⌊(s.capacity : ℚ) * s.decrease_factor⌋ ≤ s.capacity :=
        max_le hc (le_of_lt hfl)
      omega

theorem onSuccess_def (s : DynamicSemaphore) :
    onSuccess s =
      if s.increase_threshold ≤ s.success_count + 1 then
        { s with capacity := s.capacity + 1, success_count := 0 }
      else { s with success_count := s.success_count + 1 } := rfl

theorem onSuccess_min_value (s : DynamicSemaphore) :
    (onSuccess s).min_value = s.min_value := by
  rw [onSuccess_def]; split <;> rfl

theorem onSuccess_current_count (s : DynamicSemaphore) :
    (onSuccess s).current_count = s.current_count := by
  rw [onSuccess_def]; split <;> rfl

theorem onSuccess_capacity_mono (s : DynamicSemaphore) :
    s.capacity ≤ (onSuccess s).capacity := by
  rw [onSuccess_def]; split
  · exact le_of_lt (lt_add_one _)
  · exact le_refl _

theorem onSuccess_iter_capacity_mono (k : ℕ) :
    ∀ s : DynamicSemaphore, s.capacity ≤ (onSuccess^[k] s).capacity := by
  induction k with
  | zero => intro s; exact le_refl _
  | succ k ih =>
      intro s
      rw [Function.iterate_succ_apply]
      exact le_trans (onSuccess_capacity_mono s) (ih (onSuccess s))

theorem update_success_zero (g : DynamicSemaphore) (h : g.success_count = 0) :
    { g with success_count := (0 : ℤ) } = g := by
  cases g; simp_all

/-- Below the threshold, successive on_success calls only accumulate the
success counter. -/
theorem onSuccess_iter_below (g : DynamicSemaphore) (hsc : g.success_count = 0) :
    ∀ k : ℕ, (k : ℤ) < g.increase_threshold →
      onSuccess^[k] g = { g with success_count := (k : ℤ) } := by
  intro k
  induction k with
  | zero =>
      intro _
      rw [Function.iterate_zero_apply, Nat.cast_zero, update_success_zero g hsc]
  | succ k ih =>
      intro hk
      have hk1 : (k : ℤ) < g.increase_threshold := by push_cast at hk ⊢; omega
      rw [Function.iterate_succ_apply', ih hk1, onSuccess_def]
      have hcond : ¬ g.increase_threshold ≤ (k : ℤ) + 1 := by push_cast at hk; omega
      simp only [hcond, if_false]
      push_cast
      rfl

/-- Claim C2 (amended): after n on_throttle calls with no intervening
successes, capacity equals the n-fold iterate of the single-step update
c to max(min_value, floor(c times decrease_factor)) applied to the starting
capacity. The closed form max(min_value, floor(initial times factor^n))
claimed by the spec does not hold; see the counterexample. -/
theorem C2_amended (g : DynamicSemaphore) (n : ℕ)
    (hm : 1 ≤ g.min_value) (hc : g.min_value ≤ g.capacity)
    (hf0 : 0 < g.decrease_factor) (hf1 : g.decrease_factor < 1) :
    (onThrottle^[n] g).capacity =
      (fun c : ℤ => max g.min_value ⌊(c : ℚ) * g.decrease_factor⌋)^[n] g.capacity := by
  have key : ∀ k : ℕ,
      (onThrottle^[k] g).min_value = g.min_value ∧
      (onThrottle^[k] g).decrease_factor = g.decrease_factor ∧
      g.min_value ≤ (onThrottle^[k] g).capacity ∧
      (onThrottle^[k] g).capacity =
        (fun c : ℤ => max g.min_value ⌊(c : ℚ) * g.decrease_factor⌋)^[k] g.capacity := by
    intro k
    induction k with
    | zero => exact ⟨rfl, rfl, hc, rfl⟩
    | succ k ih =>
        obtain ⟨ihm, ihf, ihc, ihcap⟩ := ih
        have hstep := onThrottle_capacity_eq (onThrottle^[k] g)
          (by rw [ihm]; exact hm) (by rw [ihm]; exact ihc)
          (by rw [ihf]; exact hf0) (by rw [ihf]; exact hf1)
        refine ⟨?_, ?_, ?_, ?_⟩
        · rw [Function.iterate_succ_apply', onThrottle_min_value, ihm]
        · rw [Function.iterate_succ_apply', onThrottle_decrease_factor, ihf]
        · rw [Function.iterate_succ_apply']
          have h2 : (onThrottle^[k] g).min_value ≤ (onThrottle^[k] g).capacity := by
            rw [ihm]; exact ihc
          have h3 := min_le_onThrottle_capacity (onThrottle^[k] g) h2
          rw [ihm] at h3
          exact h3
        · rw [Function.iterate_succ_apply', hstep, ihm, ihf, ihcap,
            Function.iterate_succ_apply']
  exact (key n).2.2.2

/-- Witness for the amended C2 at the concrete gate with capacity 10,
min_value 1 and factor 3/4, for three throttles. -/
theorem C2_witness :
    (onThrottle^[3] c2Gate).capacity =
      (fun c : ℤ => max c2Gate.min_value ⌊(c : ℚ) * c2Gate.decrease_factor⌋)^[3]
        c2Gate.capacity :=
  C2_amended c2Gate 3 (by norm_num [c2Gate]) (by norm_num [c2Gate])
    (by norm_num [c2Gate]) (by norm_num [c2Gate])

/-- Claim C2 (counterexample): on the gate with initial capacity 10, min_value
1 and decrease_factor 3/4 (exactly representable in binary floating point),
three on_throttle calls leave capacity 3, while the claimed closed form
max(min_value, floor(initial times factor^3)) gives 4. -/
theorem C2_counterexample :
    (onThrottle^[3] c2Gate).capacity = 3 ∧
    max c2Gate.min_value ⌊(c2Gate.capacity : ℚ) * c2Gate.decrease_factor ^ 3⌋ = 4 := by
  have h1 : onThrottle c2Gate =
      { capacity := 7, min_value := 1, increase_threshold := 100, decrease_factor := 3/4,
        success_count := 0, current_count := 0 } := by
    simp only [onThrottle, c2Gate, pyTrunc]; norm_num
  have h2 : onThrottle
      { capacity := 7, min_value := 1, increase_threshold := 100, decrease_factor := 3/4,
        success_count := 0, current_count := 0 } =
      { capacity := 5, min_value := 1, increase_threshold := 100, decrease_factor := 3/4,
        success_count := 0, current_count := 0 } := by
    simp only [onThrottle, pyTrunc]; norm_num
  have h3 : onThrottle
      { capacity := 5, min_value := 1, increase_threshold := 100, decrease_factor := 3/4,
        success_count := 0, current_count := 0 } =
      { capacity := 3, min_value := 1, increase_threshold := 100, decrease_factor := 3/4,
        success_count := 0, current_count := 0 } := by
    simp only [onThrottle, pyTrunc]; norm_num
  have e : onThrottle^[3] c2Gate = onThrottle (onThrottle (onThrottle c2Gate)) := rfl
  constructor
  · rw [e, h1, h2, h3]
  · norm_num [c2Gate]

/-- Claim C5: after exactly increase_threshold consecutive on_success calls
from a state with a clear success counter, capacity has grown by exactly one
and the counter is reset; and under success-only load capacity is
non-decreasing. -/
theorem C5_additive_increase (g : DynamicSemaphore)
    (hth : 1 ≤ g.increase_threshold) (hsc : g.success_count = 0) :
    (onSuccess^[g.increase_threshold.toNat] g).capacity = g.capacity + 1 ∧
    (onSuccess^[g.increase_threshold.toNat] g).success_count = 0 ∧
    ∀ m n : ℕ, m ≤ n →
      (onSuccess^[m] g).capacity ≤ (onSuccess^[n] g).capacity := by
  have hT : g.increase_threshold.toNat = (g.increase_threshold.toNat - 1) + 1 := by omega
  have hcast : ((g.increase_threshold.toNat - 1 : ℕ) : ℤ) = g.increase_threshold - 1 := by
    omega
  have hbelow := onSuccess_iter_below g hsc (g.increase_threshold.toNat - 1)
    (by rw [hcast]; omega)
  have hmain : onSuccess^[g.increase_threshold.toNat] g =
      { g with capacity := g.capacity + 1, success_count := 0 } := by
    rw [hT, Function.iterate_succ_apply', hbelow, onSuccess_def]
    have hcond : g.increase_threshold ≤ ((g.increase_threshold.toNat - 1 : ℕ) : ℤ) + 1 := by
      rw [hcast]; omega
    simp only [hcond, if_true]
  refine ⟨by rw [hmain], by rw [hmain], ?_⟩
  intro m n hmn
  obtain ⟨d, rfl⟩ : ∃ d, n = d + m := ⟨n - m, by omega⟩
  rw [Function.iterate_add_apply]
  exact onSuccess_iter_capacity_mono d (onSuccess^[m] g)

/-- Witness for C5 at the concrete gate with capacity 10 and threshold 5. -/
theorem C5_witness :
    (onSuccess^[c5Gate.increase_threshold.toNat] c5Gate).capacity = c5Gate.capacity + 1 ∧
    (onSuccess^[c5Gate.increase_threshold.toNat] c5Gate).success_count = 0 ∧
    ∀ m n : ℕ, m ≤ n →
      (onSuccess^[m] c5Gate).capacity ≤ (onSuccess^[n] c5Gate).capacity :=
  C5_additive_increase c5Gate (by norm_num [c5Gate]) (by norm_num [c5Gate])

theorem acquire_min_value (s : DynamicSemaphore) : (acquire s).min_value = s.min_value := rfl

theorem acquire_capacity (s : DynamicSemaphore) : (acquire s).capacity = s.capacity := rfl

theorem release_min_value (s : DynamicSemaphore) : (release s).min_value = s.min_value := rfl

theorem release_capacity (s : DynamicSemaphore) : (release s).capacity = s.capacity := rfl

/-- Along any reachable trace the min_value parameter is fixed and capacity
never falls below it. -/
theorem reachable_min_le_capacity {s0 s : DynamicSemaphore}
    (h0 : s0.min_value ≤ s0.capacity) (hr : Reachable s0 s) :
    s.min_value = s0.min_value ∧ s.min_value ≤ s.capacity := by
  induction hr with
  | refl => exact ⟨rfl, h0⟩
  | acquireStep h hg ih => exact ⟨ih.1, by rw [acquire_min_value, acquire_capacity]; exact ih.2⟩
  | releaseStep h ih => exact ⟨ih.1, by rw [release_min_value, release_capacity]; exact ih.2⟩
  | throttleStep h ih =>
      exact ⟨by rw [onThrottle_min_value]; exact ih.1,
        by rw [onThrottle_min_value]; exact min_le_onThrottle_capacity _ ih.2⟩
  | successStep h ih =>
      exact ⟨by rw [onSuccess_min_value]; exact ih.1,
        by rw [onSuccess_min_value]; exact le_trans ih.2 (onSuccess_capacity_mono _)⟩

/-- Claim C4 (amended): in every reachable quiescent state, capacity stays at
or above min_value; acquire (under its wait condition), release and on_success
each preserve current_count at or below capacity. on_throttle does not
preserve that bound: in-flight holders are not pre-empted (see the
counterexample). -/
theorem C4_amended (s0 s : DynamicSemaphore) (h0 : s0.min_value ≤ s0.capacity)
    (hr : Reachable s0 s) :
    s.min_value ≤ s.capacity ∧
    (∀ u : DynamicSemaphore, u.current_count < u.capacity →
      (acquire u).current_count ≤ (acquire u).capacity) ∧
    (∀ u : DynamicSemaphore, u.current_count ≤ u.capacity →
      (release u).current_count ≤ (release u).capacity) ∧
    (∀ u : DynamicSemaphore, u.current_count ≤ u.capacity →
      (onSuccess u).current_count ≤ (onSuccess u).capacity) := by
  refine ⟨(reachable_min_le_capacity h0 hr).2, ?_, ?_, ?_⟩
  · intro u hu
    simp only [acquire]
    omega
  · intro u hu
    simp only [release]
    omega
  · intro u hu
    rw [onSuccess_current_count]
    exact le_trans hu (onSuccess_capacity_mono u)

/-- Witness for the amended C4 at the concrete starting gate. -/
theorem C4_witness :
    c4Gate.min_value ≤ c4Gate.capacity ∧
    (∀ u : DynamicSemaphore, u.current_count < u.capacity →
      (acquire u).current_count ≤ (acquire u).capacity) ∧
    (∀ u : DynamicSemaphore, u.current_count ≤ u.capacity →
      (release u).current_count ≤ (release u).capacity) ∧
    (∀ u : DynamicSemaphore, u.current_count ≤ u.capacity →
      (onSuccess u).current_count ≤ (onSuccess u).capacity) :=
  C4_amended c4Gate c4Gate (by norm_num [c4Gate]) Reachable.refl

/-- Claim C4 (counterexample): the state reached from a gate of capacity 4 by
four admitted acquires followed by one throttle is reachable and quiescent,
yet its current_count (4) exceeds its capacity (2): on_throttle does not
preserve the claimed invariant. -/
theorem C4_counterexample :
    Reachable c4Gate c4Bad ∧ c4Bad.capacity < c4Bad.current_count ∧
    c4Gate.min_value ≤ c4Gate.capacity ∧
    c4Gate.current_count ≤ c4Gate.capacity := by
  have hb : c4Bad =
      { capacity := 2, min_value := 1, increase_threshold := 40, decrease_factor := 1/2,
        success_count := 0, current_count := 4 } := by
    simp only [c4Bad, c4Gate, acquire, onThrottle, pyTrunc]
    norm_num
  refine ⟨?_, ?_, by norm_num [c4Gate], by norm_num [c4Gate]⟩
  · exact Reachable.throttleStep
      (Reachable.acquireStep
        (Reachable.acquireStep
          (Reachable.acquireStep
            (Reachable.acquireStep Reachable.refl (by norm_num [c4Gate]))
            (by norm_num [c4Gate, acquire]))
          (by norm_num [c4Gate, acquire]))
        (by norm_num [c4Gate, acquire]))
  · rw [hb]
    norm_num

/-- Claim C10: construction fails exactly when the factor is out of range or
initial is below min_value; the documented precondition that min_value be at
least 1 is not checked, a gate with min_value 0 is constructible, and the
throttle clamp then uses that value, letting capacity reach 0. -/
theorem C10_validation :
    (∀ (f : ℚ) (thr : Option ℤ) (init mv : ℤ),
        (∃ e, mkDynamicSemaphore f thr init mv = Except.error e) ↔
          ¬(0 < f ∧ f < 1) ∨ init < mv) ∧
    ∃ g, mkDynamicSemaphore (1/2) Option.none 1 0 = Except.ok g ∧
      g.min_value = 0 ∧ (onThrottle g).capacity = 0 := by
  constructor
  · intro f thr init mv
    unfold mkDynamicSemaphore
    by_cases h1 : ¬(0 < f ∧ f < 1)
    · simp [h1]
    · by_cases h2 : init < mv
      · simp [h1, h2]
      · simp [h1, h2]
  · refine ⟨c10Gate, ?_, rfl, ?_⟩
    · unfold mkDynamicSemaphore
      norm_num [c10Gate]
    · simp only [c10Gate, onThrottle, pyTrunc]
      norm_num

/-- Witness for C10: a rejected construction and the accepted min_value 0
construction. -/
theorem C10_witness :
    (∃ e, mkDynamicSemaphore 2 Option.none 4 1 = Except.error e) ∧
    ∃ g, mkDynamicSemaphore (1/2) Option.none 1 0 = Except.ok g ∧
      g.min_value = 0 ∧ (onThrottle g).capacity = 0 := by
  refine ⟨(C10_validation.1 2 Option.none 4 1).mpr (Or.inl (by norm_num)), C10_validation.2⟩

/- ===== Theorems: batch scheduler ===== -/

theorem successUpdate_results (cfg : ProcessorConfig ε) (st : RunState β ε) (i : ℕ) (b : β) :
    (successUpdate cfg st i b).results = st.results.set i (some (Except.ok b)) := by
  unfold successUpdate
  rcases hcp : cfg.on_progress with _ | p <;> simp [hcp]

theorem successUpdate_retried (cfg : ProcessorConfig ε) (st : RunState β ε) (i : ℕ) (b : β) :
    (successUpdate cfg st i b).total_retried = st.total_retried := by
  unfold successUpdate
  rcases hcp : cfg.on_progress with _ | p <;> simp [hcp]

theorem successUpdate_failed (cfg : ProcessorConfig ε) (st : RunState β ε) (i : ℕ) (b : β) :
    (successUpdate cfg st i b).failed_ctr = st.failed_ctr := by
  unfold successUpdate
  rcases hcp : cfg.on_progress with _ | p <;> simp [hcp]

theorem shouldRetry_one_lt {cfg : ProcessorConfig ε} {thr : Bool} {r : ℤ}
    (h : shouldRetry cfg thr r = true) : 1 < r := by
  unfold shouldRetry at h
  cases thr
  · simpa using h
  · simp at h
    exact h.2

theorem shouldRetry_true_iff (cfg : ProcessorConfig ε) (r : ℤ) :
    shouldRetry cfg true r = true ↔ cfg.handle_throttling = true ∧ 1 < r := by
  simp [shouldRetry]

theorem shouldRetry_false_iff (cfg : ProcessorConfig ε) (r : ℤ) :
    shouldRetry cfg false r = true ↔ 1 < r := by
  simp [shouldRetry]

theorem handleRetryableError_of_none {cfg : ProcessorConfig ε} {thr : Bool} {r : ℤ}
    (hs : cfg.retry_strategy = RetryStrategy.none) :
    handleRetryableError cfg thr r = RetryDecision.terminal := by
  unfold handleRetryableError
  rw [if_pos hs]

theorem handleRetryableError_requeue {cfg : ProcessorConfig ε} {thr : Bool} {r : ℤ}
    (h : handleRetryableError cfg thr r = RetryDecision.requeue) :
    cfg.retry_strategy ≠ RetryStrategy.none ∧ shouldRetry cfg thr r = true := by
  by_cases h1 : cfg.retry_strategy = RetryStrategy.none
  · rw [handleRetryableError_of_none h1] at h
    exact absurd h (by decide)
  · refine ⟨h1, ?_⟩
    by_cases h2 : shouldRetry cfg thr r = true
    · exact h2
    · unfold handleRetryableError at h
      rw [if_neg h1, if_neg h2] at h
      exact absurd h (by decide)

theorem handleRetryableError_requeue_iff {cfg : ProcessorConfig ε} {thr : Bool} {r : ℤ}
    (hs : cfg.retry_strategy ≠ RetryStrategy.none) :
    handleRetryableError cfg thr r = RetryDecision.requeue ↔ shouldRetry cfg thr r = true := by
  unfold handleRetryableError
  rw [if_neg hs]
  by_cases h : shouldRetry cfg thr r = true
  · simp [h]
  · simp [h]

/-- Exhaustive description of one worker attempt: success write, re-enqueue
(which requires more than one remaining attempt), or terminal failure. -/
theorem stepItem_cases (cfg : ProcessorConfig ε) (op : ℕ → α → ℤ → Except ε β)
    (w : WorkItem α) (rest : List (WorkItem α)) (st : RunState β ε) :
    (∃ b, op w.index w.data w.remaining_attempts = Except.ok b ∧
      stepItem cfg op w rest st = (rest, successUpdate cfg st w.index b)) ∨
    (∃ e, op w.index w.data w.remaining_attempts = Except.error e ∧
      stepItem cfg op w rest st =
        (rest ++ [{ w with remaining_attempts := w.remaining_attempts - 1 }],
          { st with total_retried := st.total_retried + 1 }) ∧
      1 < w.remaining_attempts) ∨
    (∃ e, op w.index w.data w.remaining_attempts = Except.error e ∧
      stepItem cfg op w rest st = (rest, terminalUpdate st w.index e)) := by
  unfold stepItem
  rcases hop : op w.index w.data w.remaining_attempts with e | b
  · by_cases hr : cfg.retryable e
    · rcases hd : handleRetryableError cfg (cfg.is_throttling e) w.remaining_attempts
      · refine Or.inr (Or.inl ⟨e, rfl, ?_, ?_⟩)
        · simp [hop, hr, hd]
        · exact shouldRetry_one_lt (handleRetryableError_requeue hd).2
      · refine Or.inr (Or.inr ⟨e, rfl, ?_⟩)
        simp [hop, hr, hd]
    · refine Or.inr (Or.inr ⟨e, rfl, ?_⟩)
      simp [hop, hr]
  · refine Or.inl ⟨b, rfl, ?_⟩
    simp [hop]

theorem queueMeasure_cons (w : WorkItem α) (rest : List (WorkItem α)) :
    queueMeasure (w :: rest) = itemWeight w + queueMeasure rest := by
  simp [queueMeasure]

theorem queueMeasure_append_single (rest : List (WorkItem α)) (w : WorkItem α) :
    queueMeasure (rest ++ [w]) = queueMeasure rest + itemWeight w := by
  simp [queueMeasure]

theorem queueMeasure_rotate (q : List (WorkItem α)) (k : ℕ) :
    queueMeasure (q.rotate k) = queueMeasure q := by
  unfold queueMeasure
  exact ((q.rotate_perm k).map itemWeight).sum_eq

theorem queueMeasure_eq_zero {q : List (WorkItem α)} (h : queueMeasure q = 0) : q = [] := by
  cases q with
  | nil => rfl
  | cons w rest =>
      exfalso
      rw [queueMeasure_cons] at h
      have : 1 ≤ itemWeight w := Nat.le_add_left 1 _
      omega

/-- Each attempt strictly shrinks the termination measure of the queue. -/
theorem stepItem_measure (cfg : ProcessorConfig ε) (op : ℕ → α → ℤ → Except ε β)
    (w : WorkItem α) (rest : List (WorkItem α)) (st : RunState β ε) :
    queueMeasure (stepItem cfg op w rest st).1 < queueMeasure (w :: rest) := by
  have hw : 1 ≤ itemWeight w := Nat.le_add_left 1 _
  rw [queueMeasure_cons]
  rcases stepItem_cases cfg op w rest st with ⟨b, _, hs⟩ | ⟨e, _, hs, hlt⟩ | ⟨e, _, hs⟩
  · have h1 : (stepItem cfg op w rest st).1 = rest := by rw [hs]
    rw [h1]
    omega
  · have h1 : (stepItem cfg op w rest st).1 =
        rest ++ [{ w with remaining_attempts := w.remaining_attempts - 1 }] := by rw [hs]
    rw [h1, queueMeasure_append_single]
    unfold itemWeight
    simp only []
    omega
  · have h1 : (stepItem cfg op w rest st).1 = rest := by rw [hs]
    rw [h1]
    omega

theorem stepItem_results_length (cfg : ProcessorConfig ε) (op : ℕ → α → ℤ → Except ε β)
    (w : WorkItem α) (rest : List (WorkItem α)) (st : RunState β ε) :
    (stepItem cfg op w rest st).2.results.length = st.results.length := by
  rcases stepItem_cases cfg op w rest st with ⟨b, _, hs⟩ | ⟨e, _, hs, hlt⟩ | ⟨e, _, hs⟩
  · rw [hs]
    simp only [successUpdate_results, List.length_set]
  · rw [hs]
  · rw [hs]
    simp only [terminalUpdate, List.length_set]

/-- Unfolding equation for one fuel step. -/
theorem runQueueFuel_succ (cfg : ProcessorConfig ε) (op : ℕ → α → ℤ → Except ε β)
    (sched : ℕ → ℕ) (fuel t : ℕ) (q : List (WorkItem α)) (st : RunState β ε) :
    runQueueFuel cfg op sched (fuel + 1) t q st =
      match q.rotate (sched t % q.length) with
      | [] => st
      | w :: rest =>
          runQueueFuel cfg op sched fuel (t + 1) (stepItem cfg op w rest st).1
            (stepItem cfg op w rest st).2 := rfl

theorem runQueueFuel_results_length (cfg : ProcessorConfig ε) (op : ℕ → α → ℤ → Except ε β)
    (sched : ℕ → ℕ) :
    ∀ (fuel t : ℕ) (q : List (WorkItem α)) (st : RunState β ε),
      (runQueueFuel cfg op sched fuel t q st).results.length = st.results.length := by
  intro fuel
  induction fuel with
  | zero => intro t q st; rfl
  | succ fuel ih =>
      intro t q st
      rw [runQueueFuel_succ]
      rcases hrot : q.rotate (sched t % q.length) with _ | ⟨w, rest⟩
      · rfl
      · rw [ih]
        exact stepItem_results_length cfg op w rest st

theorem buildQueue_index_lt (ma : ℤ) :
    ∀ (start : ℕ) (xs : List α) (w : WorkItem α),
      w ∈ buildQueue ma start xs → w.index < start + xs.length := by
  intro start xs
  induction xs generalizing start with
  | nil => intro w hw; simp [buildQueue] at hw
  | cons x l ih =>
      intro w hw
      simp only [buildQueue, List.mem_cons] at hw
      rcases hw with rfl | hw
      · simp only [List.length_cons]
        omega
      · have := ih (start + 1) w hw
        simp only [List.length_cons]
        omega

theorem buildQueue_mem_spec (ma : ℤ) :
    ∀ (start : ℕ) (xs : List α) (w : WorkItem α),
      w ∈ buildQueue ma start xs →
      ∃ j, ∃ h : j < xs.length, w.index = start + j ∧ w.data = xs.get ⟨j, h⟩ := by
  intro start xs
  induction xs generalizing start with
  | nil => intro w hw; simp [buildQueue] at hw
  | cons x l ih =>
      intro w hw
      simp only [buildQueue, List.mem_cons] at hw
      rcases hw with rfl | hw
      · exact ⟨0, by simp, by simp, by simp⟩
      · obtain ⟨j, hj, hidx, hdata⟩ := ih (start + 1) w hw
        refine ⟨j + 1, by simp only [List.length_cons]; omega, by omega, ?_⟩
        simp only [List.get_cons_succ]
        exact hdata

theorem buildQueue_mem_index (ma : ℤ) :
    ∀ (start : ℕ) (xs : List α) (j : ℕ) (h : j < xs.length),
      { index := start + j, data := xs.get ⟨j, h⟩, remaining_attempts := ma } ∈
        buildQueue ma start xs := by
  intro start xs
  induction xs generalizing start with
  | nil => intro j h; simp at h
  | cons x l ih =>
      intro j h
      cases j with
      | zero =>
          simp only [buildQueue, List.mem_cons]
          left
          simp
      | succ j =>
          simp only [buildQueue, List.mem_cons]
          right
          have h2 : j < l.length := by simpa using h
          have heq : start + (j + 1) = (start + 1) + j := by omega
          rw [heq]
          simp only [List.get_cons_succ]
          exact ih (start + 1) j h2

theorem covered_of_perm {N : ℕ} {q q2 : List (WorkItem α)}
    {res : List (Option (Except ε β))} (hp : q.Perm q2) (h : Covered N q res) :
    Covered N q2 res := by
  obtain ⟨h1, h2, h3⟩ := h
  refine ⟨h1, fun w hw => h2 w (hp.symm.subset hw), fun i hi => ?_⟩
  rcases h3 i hi with hres | ⟨w, hw, hiw⟩
  · exact Or.inl hres
  · exact Or.inr ⟨w, hp.subset hw, hiw⟩

/-- One worker attempt preserves the coverage invariant. -/
theorem stepItem_covered {N : ℕ} (cfg : ProcessorConfig ε) (op : ℕ → α → ℤ → Except ε β)
    (w : WorkItem α) (rest : List (WorkItem α)) (st : RunState β ε)
    (h : Covered N (w :: rest) st.results) :
    Covered N (stepItem cfg op w rest st).1 (stepItem cfg op w rest st).2.results := by
  obtain ⟨hlen, hidx, hcov⟩ := h
  have hwN : w.index < N := hidx w (List.mem_cons_self w rest)
  have hwlen : w.index < st.results.length := by omega
  have hrest : ∀ v ∈ rest, v.index < N := fun v hv => hidx v (List.mem_cons_of_mem w hv)
  rcases stepItem_cases cfg op w rest st with ⟨b, _, hs⟩ | ⟨e, _, hs, hlt⟩ | ⟨e, _, hs⟩
  · have h1 : (stepItem cfg op w rest st).1 = rest := by rw [hs]
    have h2 : (stepItem cfg op w rest st).2.results =
        st.results.set w.index (some (Except.ok b)) := by rw [hs, successUpdate_results]
    rw [h1, h2]
    refine ⟨by rw [List.length_set]; exact hlen, hrest, fun i hi => ?_⟩
    by_cases hiw : i = w.index
    · subst hiw
      exact Or.inl ⟨Except.ok b, List.getElem?_set_eq_of_lt _ hwlen⟩
    · rcases hcov i hi with ⟨v, hv⟩ | ⟨u, hu, hui⟩
      · exact Or.inl ⟨v, by rw [List.getElem?_set_ne (fun hc => hiw hc.symm)]; exact hv⟩
      · rcases List.mem_cons.mp hu with rfl | hu2
        · exact absurd hui.symm hiw
        · exact Or.inr ⟨u, hu2, hui⟩
  · have h1 : (stepItem cfg op w rest st).1 =
        rest ++ [{ w with remaining_attempts := w.remaining_attempts - 1 }] := by rw [hs]
    have h2 : (stepItem cfg op w rest st).2.results = st.results := by rw [hs]
    rw [h1, h2]
    refine ⟨hlen, ?_, fun i hi => ?_⟩
    · intro v hv
      rcases List.mem_append.mp hv with hv1 | hv2
      · exact hrest v hv1
      · rcases List.mem_singleton.mp hv2 with rfl
        exact hwN
    · rcases hcov i hi with hl | ⟨u, hu, hui⟩
      · exact Or.inl hl
      · rcases List.mem_cons.mp hu with rfl | hu2
        · exact Or.inr ⟨{ u with remaining_attempts := u.remaining_attempts - 1 },
            List.mem_append.mpr (Or.inr (List.mem_singleton.mpr rfl)), hui⟩
        · exact Or.inr ⟨u, List.mem_append.mpr (Or.inl hu2), hui⟩
  · have h1 : (stepItem cfg op w rest st).1 = rest := by rw [hs]
    have h2 : (stepItem cfg op w rest st).2.results =
        st.results.set w.index (some (Except.error e)) := by rw [hs]; rfl
    rw [h1, h2]
    refine ⟨by rw [List.length_set]; exact hlen, hrest, fun i hi => ?_⟩
    by_cases hiw : i = w.index
    · subst hiw
      exact Or.inl ⟨Except.error e, List.getElem?_set_eq_of_lt _ hwlen⟩
    · rcases hcov i hi with ⟨v, hv⟩ | ⟨u, hu, hui⟩
      · exact Or.inl ⟨v, by rw [List.getElem?_set_ne (fun hc => hiw hc.symm)]; exact hv⟩
      · rcases List.mem_cons.mp hu with rfl | hu2
        · exact absurd hui.symm hiw
        · exact Or.inr ⟨u, hu2, hui⟩

/-- With enough fuel, every slot of the results list ends up written. -/
theorem runQueueFuel_covered {N : ℕ} (cfg : ProcessorConfig ε) (op : ℕ → α → ℤ → Except ε β)
    (sched : ℕ → ℕ) :
    ∀ (fuel t : ℕ) (q : List (WorkItem α)) (st : RunState β ε),
      queueMeasure q ≤ fuel → Covered N q st.results →
      ∀ i, i < N → ∃ v, (runQueueFuel cfg op sched fuel t q st).results[i]? = some (some v) := by
  intro fuel
  induction fuel with
  | zero =>
      intro t q st hm hcov i hi
      have hq : q = [] := queueMeasure_eq_zero (by omega)
      subst hq
      rcases hcov.2.2 i hi with ⟨v, hv⟩ | ⟨u, hu, _⟩
      · exact ⟨v, hv⟩
      · simp at hu
  | succ fuel ih =>
      intro t q st hm hcov i hi
      rw [runQueueFuel_succ]
      rcases hrot : q.rotate (sched t % q.length) with _ | ⟨w, rest⟩ <;> simp only [hrot]
      · have hq : q = [] := by
          have hlr := congrArg List.length hrot
          rw [List.length_rotate] at hlr
          exact List.eq_nil_of_length_eq_zero hlr
        subst hq
        rcases hcov.2.2 i hi with ⟨v, hv⟩ | ⟨u, hu, _⟩
        · exact ⟨v, hv⟩
        · simp at hu
      · have hperm : q.Perm (w :: rest) := by
          have hp := q.rotate_perm (sched t % q.length)
          rw [hrot] at hp
          exact hp.symm
        have hcov2 : Covered N (w :: rest) st.results := covered_of_perm hperm hcov
        have hm2 : queueMeasure (stepItem cfg op w rest st).1 ≤ fuel := by
          have hlt := stepItem_measure cfg op w rest st
          have heq : queueMeasure (w :: rest) = queueMeasure q := by
            rw [← hrot, queueMeasure_rotate]
          omega
        exact ih (t + 1) (stepItem cfg op w rest st).1 (stepItem cfg op w rest st).2 hm2
          (stepItem_covered cfg op w rest st hcov2) i hi

/-- Claim C1: for every input, operation and configuration with at least one
allowed attempt, process returns a results sequence of the input length, with
every slot written with a success or an error, and with counters satisfying
total_processed + total_failed = input length. -/
theorem C1_result_shape (cfg : ProcessorConfig ε) (op : ℕ → α → ℤ → Except ε β)
    (exc_instance : β → Bool) (sched : ℕ → ℕ) (items : List α)
    (hmax : 1 ≤ cfg.max_attempts) :
    (process cfg op exc_instance sched items).results.length = items.length ∧
    (∀ i, i < items.length →
      (∃ b, (process cfg op exc_instance sched items).results[i]? =
          some (some (Except.ok b))) ∨
      ∃ e, (process cfg op exc_instance sched items).results[i]? =
          some (some (Except.error e))) ∧
    (process cfg op exc_instance sched items).total_processed +
      (process cfg op exc_instance sched items).total_failed = (items.length : ℤ) := by
  have hres : (process cfg op exc_instance sched items).results =
      (runQueueFuel cfg op sched (queueMeasure (buildQueue cfg.max_attempts 0 items)) 0
        (buildQueue cfg.max_attempts 0 items)
        { results := List.replicate items.length Option.none, total_retried := 0,
          failed_ctr := 0, calls := 0, ticks := 0 }).results := rfl
  have hcov : Covered items.length (buildQueue cfg.max_attempts 0 items)
      (List.replicate items.length (Option.none : Option (Except ε β))) := by
    refine ⟨List.length_replicate _ _, ?_, ?_⟩
    · intro w hw
      have := buildQueue_index_lt cfg.max_attempts 0 items w hw
      omega
    · intro i hi
      have hmem := buildQueue_mem_index cfg.max_attempts 0 items i hi
      exact Or.inr ⟨_, hmem, by simp⟩
  have hall := runQueueFuel_covered cfg op sched
      (queueMeasure (buildQueue cfg.max_attempts 0 items)) 0
      (buildQueue cfg.max_attempts 0 items)
      { results := List.replicate items.length Option.none, total_retried := 0,
        failed_ctr := 0, calls := 0, ticks := 0 } (le_refl _) hcov
  refine ⟨?_, ?_, ?_⟩
  · rw [hres, runQueueFuel_results_length]
    exact List.length_replicate _ _
  · intro i hi
    obtain ⟨v, hv⟩ := hall i hi
    rw [hres]
    rcases v with e | b
    · exact Or.inr ⟨e, hv⟩
    · exact Or.inl ⟨b, hv⟩
  · have htp : (process cfg op exc_instance sched items).total_processed =
        (items.length : ℤ) -
          ((process cfg op exc_instance sched items).total_failed : ℤ) := rfl
    rw [htp]
    ring

/-- Witness for C1: a one-item run with a doubling operation and one worker. -/
theorem C1_witness :
    (process witCfg (fun _ (d : ℕ) _ => (Except.ok (2 * d) : Except Unit ℕ)) (fun _ => false)
        (fun _ => 0) [5]).results.length = ([5] : List ℕ).length ∧
    (∀ i, i < ([5] : List ℕ).length →
      (∃ b, (process witCfg (fun _ (d : ℕ) _ => (Except.ok (2 * d) : Except Unit ℕ))
          (fun _ => false) (fun _ => 0) [5]).results[i]? = some (some (Except.ok b))) ∨
      ∃ e, (process witCfg (fun _ (d : ℕ) _ => (Except.ok (2 * d) : Except Unit ℕ))
          (fun _ => false) (fun _ => 0) [5]).results[i]? = some (some (Except.error e))) ∧
    (process witCfg (fun _ (d : ℕ) _ => (Except.ok (2 * d) : Except Unit ℕ)) (fun _ => false)
        (fun _ => 0) [5]).total_processed +
      (process witCfg (fun _ (d : ℕ) _ => (Except.ok (2 * d) : Except Unit ℕ)) (fun _ => false)
        (fun _ => 0) [5]).total_failed = (([5] : List ℕ).length : ℤ) :=
  C1_result_shape witCfg (fun _ d _ => Except.ok (2 * d)) (fun _ => false) (fun _ => 0) [5]
    (by decide)

theorem stepItem_ok (cfg : ProcessorConfig ε) (op : ℕ → α → ℤ → Except ε β)
    (w : WorkItem α) (rest : List (WorkItem α)) (st : RunState β ε) (b : β)
    (hb : op w.index w.data w.remaining_attempts = Except.ok b) :
    stepItem cfg op w rest st = (rest, successUpdate cfg st w.index b) := by
  simp [stepItem, hb]

theorem stepItem_requeue (cfg : ProcessorConfig ε) (op : ℕ → α → ℤ → Except ε β)
    (w : WorkItem α) (rest : List (WorkItem α)) (st : RunState β ε) (e : ε)
    (he : op w.index w.data w.remaining_attempts = Except.error e)
    (hr : cfg.retryable e = true)
    (hd : handleRetryableError cfg (cfg.is_throttling e) w.remaining_attempts =
      RetryDecision.requeue) :
    stepItem cfg op w rest st =
      (rest ++ [{ w with remaining_attempts := w.remaining_attempts - 1 }],
        { st with total_retried := st.total_retried + 1 }) := by
  simp [stepItem, he, hr, hd]

theorem stepItem_terminal_dec (cfg : ProcessorConfig ε) (op : ℕ → α → ℤ → Except ε β)
    (w : WorkItem α) (rest : List (WorkItem α)) (st : RunState β ε) (e : ε)
    (he : op w.index w.data w.remaining_attempts = Except.error e)
    (hr : cfg.retryable e = true)
    (hd : handleRetryableError cfg (cfg.is_throttling e) w.remaining_attempts =
      RetryDecision.terminal) :
    stepItem cfg op w rest st = (rest, terminalUpdate st w.index e) := by
  simp [stepItem, he, hr, hd]

theorem stepItem_not_retryable (cfg : ProcessorConfig ε) (op : ℕ → α → ℤ → Except ε β)
    (w : WorkItem α) (rest : List (WorkItem α)) (st : RunState β ε) (e : ε)
    (he : op w.index w.data w.remaining_attempts = Except.error e)
    (hr : cfg.retryable e = false) :
    stepItem cfg op w rest st = (rest, terminalUpdate st w.index e) := by
  simp [stepItem, he, hr]

/-- When the operation always succeeds, every slot ends up holding exactly the
success value for its own input, independently of the dequeue schedule. -/
theorem runQueueFuel_allOk (cfg : ProcessorConfig ε) (sched : ℕ → ℕ) (f : α → β) :
    ∀ (fuel t : ℕ) (q : List (WorkItem α)) (st : RunState β ε)
      (target : List (Option (Except ε β))),
      queueMeasure q ≤ fuel →
      st.results.length = target.length →
      (∀ w ∈ q, w.index < target.length ∧
        target[w.index]? = some (some (Except.ok (f w.data)))) →
      (∀ i, i < target.length → st.results[i]? = target[i]? ∨ ∃ w ∈ q, w.index = i) →
      ∀ i, i < target.length →
        (runQueueFuel cfg (fun _ d _ => Except.ok (f d)) sched fuel t q st).results[i]? =
          target[i]? := by
  intro fuel
  induction fuel with
  | zero =>
      intro t q st target hm hlen hq hcov i hi
      have hqnil : q = [] := queueMeasure_eq_zero (by omega)
      subst hqnil
      rcases hcov i hi with h | ⟨u, hu, _⟩
      · exact h
      · simp at hu
  | succ fuel ih =>
      intro t q st target hm hlen hq hcov i hi
      rw [runQueueFuel_succ]
      rcases hrot : q.rotate (sched t % q.length) with _ | ⟨w, rest⟩ <;> simp only [hrot]
      · have hqnil : q = [] := by
          have hlr := congrArg List.length hrot
          rw [List.length_rotate] at hlr
          exact List.eq_nil_of_length_eq_zero hlr
        subst hqnil
        rcases hcov i hi with h | ⟨u, hu, _⟩
        · exact h
        · simp at hu
      · have hperm : q.Perm (w :: rest) := by
          have hp := q.rotate_perm (sched t % q.length)
          rw [hrot] at hp
          exact hp.symm
        have hq2 : ∀ v ∈ w :: rest, v.index < target.length ∧
            target[v.index]? = some (some (Except.ok (f v.data))) :=
          fun v hv => hq v (hperm.symm.subset hv)
        have hcov2 : ∀ i2, i2 < target.length →
            st.results[i2]? = target[i2]? ∨ ∃ v ∈ w :: rest, v.index = i2 := by
          intro i2 hi2
          rcases hcov i2 hi2 with h | ⟨u, hu, hui⟩
          · exact Or.inl h
          · exact Or.inr ⟨u, hperm.subset hu, hui⟩
        have hwlt := (hq2 w (List.mem_cons_self w rest)).1
        have hwt := (hq2 w (List.mem_cons_self w rest)).2
        have hs := stepItem_ok cfg (fun _ d _ => Except.ok (f d)) w rest st (f w.data) rfl
        have h1 : (stepItem cfg (fun _ d _ => Except.ok (f d)) w rest st).1 = rest := by
          rw [hs]
        have h2 : (stepItem cfg (fun _ d _ => Except.ok (f d)) w rest st).2.results =
            st.results.set w.index (some (Except.ok (f w.data))) := by
          rw [hs, successUpdate_results]
        have hm2 : queueMeasure (stepItem cfg (fun _ d _ => Except.ok (f d)) w rest st).1 ≤
            fuel := by
          have hlt := stepItem_measure cfg (fun _ d _ => Except.ok (f d)) w rest st
          have heq : queueMeasure (w :: rest) = queueMeasure q := by
            rw [← hrot, queueMeasure_rotate]
          omega
        refine ih (t + 1) (stepItem cfg (fun _ d _ => Except.ok (f d)) w rest st).1
          (stepItem cfg (fun _ d _ => Except.ok (f d)) w rest st).2 target hm2 ?_ ?_ ?_ i hi
        · rw [h2, List.length_set]
          exact hlen
        · rw [h1]
          exact fun v hv => hq2 v (List.mem_cons_of_mem w hv)
        · rw [h1, h2]
          intro i2 hi2
          by_cases hiw : i2 = w.index
          · subst hiw
            left
            rw [List.getElem?_set_eq_of_lt _ (by omega : w.index < st.results.length), hwt]
          · rcases hcov2 i2 hi2 with h | ⟨u, hu, hui⟩
            · left
              rw [List.getElem?_set_ne (fun hc => hiw hc.symm)]
              exact h
            · rcases List.mem_cons.mp hu with rfl | hu2
              · exact absurd hui.symm hiw
              · exact Or.inr ⟨u, hu2, hui⟩

/-- A run of process whose operation always succeeds writes exactly the mapped
input, slot-aligned, for every schedule. -/
theorem process_allOk (cfg : ProcessorConfig ε) (exc_instance : β → Bool) (sched : ℕ → ℕ)
    (items : List α) (f : α → β) :
    (process cfg (fun _ d _ => Except.ok (f d)) exc_instance sched items).results =
      items.map fun x => some (Except.ok (f x)) := by
  have hres : (process cfg (fun _ d _ => Except.ok (f d)) exc_instance sched items).results =
      (runQueueFuel cfg (fun _ d _ => Except.ok (f d)) sched
        (queueMeasure (buildQueue cfg.max_attempts 0 items)) 0
        (buildQueue cfg.max_attempts 0 items)
        { results := List.replicate items.length Option.none, total_retried := 0,
          failed_ctr := 0, calls := 0, ticks := 0 }).results := rfl
  have htlen : (items.map fun x => some (Except.ok (f x)) :
      List (Option (Except ε β))).length = items.length := by simp
  have hlen : (List.replicate items.length (Option.none : Option (Except ε β))).length =
      (items.map fun x => some (Except.ok (f x)) : List (Option (Except ε β))).length := by
    simp
  have hq : ∀ w ∈ buildQueue cfg.max_attempts 0 items,
      w.index < (items.map fun x => some (Except.ok (f x)) :
          List (Option (Except ε β))).length ∧
      (items.map fun x => some (Except.ok (f x)) :
          List (Option (Except ε β)))[w.index]? = some (some (Except.ok (f w.data))) := by
    intro w hw
    obtain ⟨j, hj, hidx, hdata⟩ := buildQueue_mem_spec cfg.max_attempts 0 items w hw
    have hidx2 : w.index = j := by omega
    refine ⟨by omega, ?_⟩
    rw [hidx2, List.getElem?_map, List.getElem?_eq_getElem hj]
    simp [hdata, List.get_eq_getElem]
  have hcov : ∀ i, i < (items.map fun x => some (Except.ok (f x)) :
      List (Option (Except ε β))).length →
      (List.replicate items.length (Option.none : Option (Except ε β)))[i]? =
        (items.map fun x => some (Except.ok (f x)) : List (Option (Except ε β)))[i]? ∨
      ∃ w ∈ buildQueue cfg.max_attempts 0 items, w.index = i := by
    intro i hi
    right
    have hi2 : i < items.length := by omega
    exact ⟨_, buildQueue_mem_index cfg.max_attempts 0 items i hi2, by simp⟩
  have hall := runQueueFuel_allOk cfg sched f
      (queueMeasure (buildQueue cfg.max_attempts 0 items)) 0
      (buildQueue cfg.max_attempts 0 items)
      { results := List.replicate items.length Option.none, total_retried := 0,
        failed_ctr := 0, calls := 0, ticks := 0 }
      (items.map fun x => some (Except.ok (f x))) (le_refl _) hlen hq hcov
  rw [hres]
  apply List.ext_getElem?
  intro i
  by_cases hi : i < (items.map fun x => some (Except.ok (f x)) :
      List (Option (Except ε β))).length
  · exact hall i hi
  · have hrl : (runQueueFuel cfg (fun _ d _ => Except.ok (f d)) sched
        (queueMeasure (buildQueue cfg.max_attempts 0 items)) 0
        (buildQueue cfg.max_attempts 0 items)
        { results := List.replicate items.length Option.none, total_retried := 0,
          failed_ctr := 0, calls := 0, ticks := 0 }).results.length = items.length := by
      rw [runQueueFuel_results_length]
      simp
    rw [List.getElem?_eq_none (by omega), List.getElem?_eq_none (by omega)]

/-- Claim C7: with the identity operation (which always succeeds) the results
sequence equals the input list slot for slot, for every dequeue schedule (and
so for every worker count, since workers only interleave attempts). -/
theorem C7_order_preservation (cfg : ProcessorConfig ε) (exc_instance : α → Bool)
    (sched : ℕ → ℕ) (items : List α) :
    (process cfg (fun _ d _ => Except.ok d) exc_instance sched items).results =
      items.map fun x => some (Except.ok x) :=
  process_allOk cfg exc_instance sched items (fun x => x)

/-- Claim C9: process recomputes total_failed from the final slots by the
Exception-instance test, so an operation that succeeds with Exception-instance
values has all its items counted as failed and none as processed, even though
every slot holds a success. -/
theorem C9_exception_valued_success (cfg : ProcessorConfig ε) (exc_instance : β → Bool)
    (sched : ℕ → ℕ) (items : List α) (f : α → β)
    (hexc : ∀ x ∈ items, exc_instance (f x) = true) :
    (process cfg (fun _ d _ => Except.ok (f d)) exc_instance sched items).results =
      (items.map fun x => some (Except.ok (f x))) ∧
    (process cfg (fun _ d _ => Except.ok (f d)) exc_instance sched items).total_failed =
      items.length ∧
    (process cfg (fun _ d _ => Except.ok (f d)) exc_instance sched items).total_processed =
      0 := by
  have hres := process_allOk cfg exc_instance sched items f
  have hfail : (process cfg (fun _ d _ => Except.ok (f d)) exc_instance sched
      items).total_failed =
      ((process cfg (fun _ d _ => Except.ok (f d)) exc_instance sched items).results.filter
        (isExceptionInstance exc_instance)).length := rfl
  have hfilter : ((items.map fun x => some (Except.ok (f x)) :
      List (Option (Except ε β))).filter (isExceptionInstance exc_instance)) =
      items.map fun x => some (Except.ok (f x)) := by
    apply List.filter_eq_self.mpr
    intro a ha
    obtain ⟨x, hx, rfl⟩ := List.mem_map.mp ha
    simp only [isExceptionInstance]
    exact hexc x hx
  have hfl : (process cfg (fun _ d _ => Except.ok (f d)) exc_instance sched
      items).total_failed = items.length := by
    rw [hfail, hres, hfilter]
    simp
  refine ⟨hres, hfl, ?_⟩
  have htp : (process cfg (fun _ d _ => Except.ok (f d)) exc_instance sched
      items).total_processed =
      (items.length : ℤ) -
        ((process cfg (fun _ d _ => Except.ok (f d)) exc_instance sched
          items).total_failed : ℤ) := rfl
  rw [htp, hfl]
  ring

/-- Witness for C9: a one-item run whose success values are flagged as
Exception instances. -/
theorem C9_witness :
    (process witCfg (fun _ (d : ℕ) _ => (Except.ok (d + 1) : Except Unit ℕ)) (fun _ => true)
        (fun _ => 0) [3]).results =
      (([3] : List ℕ).map fun x => some (Except.ok (x + 1))) ∧
    (process witCfg (fun _ (d : ℕ) _ => (Except.ok (d + 1) : Except Unit ℕ)) (fun _ => true)
        (fun _ => 0) [3]).total_failed = ([3] : List ℕ).length ∧
    (process witCfg (fun _ (d : ℕ) _ => (Except.ok (d + 1) : Except Unit ℕ)) (fun _ => true)
        (fun _ => 0) [3]).total_processed = 0 :=
  C9_exception_valued_success witCfg (fun _ => true) (fun _ => 0) [3] (fun d => d + 1)
    (fun x _ => rfl)

/-- One worker attempt never reads the progress callback for anything but the
bookkeeping fields: queue, results and the retried and failed counters agree
across any two callback behaviors. -/
theorem stepItem_progress_indep (cfg : ProcessorConfig ε) (op : ℕ → α → ℤ → Except ε β)
    (p1 p2 : Option (ℕ → Bool)) (w : WorkItem α) (rest : List (WorkItem α))
    (st1 st2 : RunState β ε) (hres : st1.results = st2.results)
    (hret : st1.total_retried = st2.total_retried) (hfail : st1.failed_ctr = st2.failed_ctr) :
    (stepItem (withProgress cfg p1) op w rest st1).1 =
      (stepItem (withProgress cfg p2) op w rest st2).1 ∧
    (stepItem (withProgress cfg p1) op w rest st1).2.results =
      (stepItem (withProgress cfg p2) op w rest st2).2.results ∧
    (stepItem (withProgress cfg p1) op w rest st1).2.total_retried =
      (stepItem (withProgress cfg p2) op w rest st2).2.total_retried ∧
    (stepItem (withProgress cfg p1) op w rest st1).2.failed_ctr =
      (stepItem (withProgress cfg p2) op w rest st2).2.failed_ctr := by
  rcases hop : op w.index w.data w.remaining_attempts with e | b
  · cases hr : cfg.retryable e
    · rw [stepItem_not_retryable (withProgress cfg p1) op w rest st1 e hop hr,
        stepItem_not_retryable (withProgress cfg p2) op w rest st2 e hop hr]
      exact ⟨rfl, by simp [terminalUpdate, hres], by simp [terminalUpdate, hret],
        by simp [terminalUpdate, hfail]⟩
    · cases hd : handleRetryableError cfg (cfg.is_throttling e) w.remaining_attempts
      · rw [stepItem_requeue (withProgress cfg p1) op w rest st1 e hop hr hd,
          stepItem_requeue (withProgress cfg p2) op w rest st2 e hop hr hd]
        exact ⟨rfl, hres, by simp [hret], hfail⟩
      · rw [stepItem_terminal_dec (withProgress cfg p1) op w rest st1 e hop hr hd,
          stepItem_terminal_dec (withProgress cfg p2) op w rest st2 e hop hr hd]
        exact ⟨rfl, by simp [terminalUpdate, hres], by simp [terminalUpdate, hret],
          by simp [terminalUpdate, hfail]⟩
  · rw [stepItem_ok (withProgress cfg p1) op w rest st1 b hop,
      stepItem_ok (withProgress cfg p2) op w rest st2 b hop]
    exact ⟨rfl, by rw [successUpdate_results, successUpdate_results, hres],
      by rw [successUpdate_retried, successUpdate_retried, hret],
      by rw [successUpdate_failed, successUpdate_failed, hfail]⟩

/-- The whole run is insensitive to the progress-callback behavior in its
results and in the retried and failed counters. -/
theorem runQueueFuel_progress_indep (cfg : ProcessorConfig ε)
    (op : ℕ → α → ℤ → Except ε β) (sched : ℕ → ℕ) (p1 p2 : Option (ℕ → Bool)) :
    ∀ (fuel t : ℕ) (q : List (WorkItem α)) (st1 st2 : RunState β ε),
      st1.results = st2.results → st1.total_retried = st2.total_retried →
      st1.failed_ctr = st2.failed_ctr →
      (runQueueFuel (withProgress cfg p1) op sched fuel t q st1).results =
        (runQueueFuel (withProgress cfg p2) op sched fuel t q st2).results ∧
      (runQueueFuel (withProgress cfg p1) op sched fuel t q st1).total_retried =
        (runQueueFuel (withProgress cfg p2) op sched fuel t q st2).total_retried ∧
      (runQueueFuel (withProgress cfg p1) op sched fuel t q st1).failed_ctr =
        (runQueueFuel (withProgress cfg p2) op sched fuel t q st2).failed_ctr := by
  intro fuel
  induction fuel with
  | zero => intro t q st1 st2 h1 h2 h3; exact ⟨h1, h2, h3⟩
  | succ fuel ih =>
      intro t q st1 st2 h1 h2 h3
      rw [runQueueFuel_succ, runQueueFuel_succ]
      rcases hrot : q.rotate (sched t % q.length) with _ | ⟨w, rest⟩ <;> simp only [hrot]
      · exact ⟨h1, h2, h3⟩
      · obtain ⟨hq, ha, hb, hc⟩ := stepItem_progress_indep cfg op p1 p2 w rest st1 st2 h1 h2 h3
        rw [hq]
        exact ih (t + 1) (stepItem (withProgress cfg p2) op w rest st2).1
          (stepItem (withProgress cfg p1) op w rest st1).2
          (stepItem (withProgress cfg p2) op w rest st2).2 ha hb hc

/-- Claim C8: a raising progress callback (any pattern of raising invocations,
including none) leaves the results sequence and all three counters of process
identical to a run with the callback absent: callback exceptions are swallowed
and never alter per-item outcomes. -/
theorem C8_progress_exceptions_ignored (cfg : ProcessorConfig ε)
    (op : ℕ → α → ℤ → Except ε β) (exc_instance : β → Bool) (sched : ℕ → ℕ)
    (items : List α) (p : Option (ℕ → Bool)) :
    (process (withProgress cfg p) op exc_instance sched items).results =
      (process (withProgress cfg Option.none) op exc_instance sched items).results ∧
    (process (withProgress cfg p) op exc_instance sched items).total_processed =
      (process (withProgress cfg Option.none) op exc_instance sched items).total_processed ∧
    (process (withProgress cfg p) op exc_instance sched items).total_failed =
      (process (withProgress cfg Option.none) op exc_instance sched items).total_failed ∧
    (process (withProgress cfg p) op exc_instance sched items).total_retried =
      (process (withProgress cfg Option.none) op exc_instance sched items).total_retried := by
  obtain ⟨hres, hret, _⟩ := runQueueFuel_progress_indep cfg op sched p Option.none
    (queueMeasure (buildQueue cfg.max_attempts 0 items)) 0
    (buildQueue cfg.max_attempts 0 items)
    { results := List.replicate items.length Option.none, total_retried := 0,
      failed_ctr := 0, calls := 0, ticks := 0 }
    { results := List.replicate items.length Option.none, total_retried := 0,
      failed_ctr := 0, calls := 0, ticks := 0 } rfl rfl rfl
  have e1 : (process (withProgress cfg p) op exc_instance sched items).results =
      (runQueueFuel (withProgress cfg p) op sched
        (queueMeasure (buildQueue cfg.max_attempts 0 items)) 0
        (buildQueue cfg.max_attempts 0 items)
        { results := List.replicate items.length Option.none, total_retried := 0,
          failed_ctr := 0, calls := 0, ticks := 0 }).results := rfl
  have e2 : (process (withProgress cfg Option.none) op exc_instance sched items).results =
      (runQueueFuel (withProgress cfg Option.none) op sched
        (queueMeasure (buildQueue cfg.max_attempts 0 items)) 0
        (buildQueue cfg.max_attempts 0 items)
        { results := List.replicate items.length Option.none, total_retried := 0,
          failed_ctr := 0, calls := 0, ticks := 0 }).results := rfl
  have hresults : (process (withProgress cfg p) op exc_instance sched items).results =
      (process (withProgress cfg Option.none) op exc_instance sched items).results := by
    rw [e1, e2]
    exact hres
  have hfl : (process (withProgress cfg p) op exc_instance sched items).total_failed =
      (process (withProgress cfg Option.none) op exc_instance sched items).total_failed := by
    have f1 : (process (withProgress cfg p) op exc_instance sched items).total_failed =
        ((process (withProgress cfg p) op exc_instance sched items).results.filter
          (isExceptionInstance exc_instance)).length := rfl
    have f2 : (process (withProgress cfg Option.none) op exc_instance sched
        items).total_failed =
        ((process (withProgress cfg Option.none) op exc_instance sched items).results.filter
          (isExceptionInstance exc_instance)).length := rfl
    rw [f1, f2, hresults]
  refine ⟨hresults, ?_, hfl, ?_⟩
  · have g1 : (process (withProgress cfg p) op exc_instance sched items).total_processed =
        (items.length : ℤ) -
          ((process (withProgress cfg p) op exc_instance sched items).total_failed : ℤ) := rfl
    have g2 : (process (withProgress cfg Option.none) op exc_instance sched
        items).total_processed =
        (items.length : ℤ) -
          ((process (withProgress cfg Option.none) op exc_instance sched
            items).total_failed : ℤ) := rfl
    rw [g1, g2, hfl]
  · have r1 : (process (withProgress cfg p) op exc_instance sched items).total_retried =
      (runQueueFuel (withProgress cfg p) op sched
        (queueMeasure (buildQueue cfg.max_attempts 0 items)) 0
        (buildQueue cfg.max_attempts 0 items)
        { results := List.replicate items.length Option.none, total_retried := 0,
          failed_ctr := 0, calls := 0, ticks := 0 }).total_retried := rfl
    have r2 : (process (withProgress cfg Option.none) op exc_instance sched
        items).total_retried =
      (runQueueFuel (withProgress cfg Option.none) op sched
        (queueMeasure (buildQueue cfg.max_attempts 0 items)) 0
        (buildQueue cfg.max_attempts 0 items)
        { results := List.replicate items.length Option.none, total_retried := 0,
          failed_ctr := 0, calls := 0, ticks := 0 }).total_retried := rfl
    rw [r1, r2]
    exact hret

theorem stepItem_requeue_iff (cfg : ProcessorConfig ε) (op : ℕ → α → ℤ → Except ε β)
    (w : WorkItem α) (rest : List (WorkItem α)) (st : RunState β ε) (e : ε)
    (he : op w.index w.data w.remaining_attempts = Except.error e)
    (hr : cfg.retryable e = true) :
    ((stepItem cfg op w rest st).1 =
      rest ++ [{ w with remaining_attempts := w.remaining_attempts - 1 }]) ↔
      handleRetryableError cfg (cfg.is_throttling e) w.remaining_attempts =
        RetryDecision.requeue := by
  have hne : rest ++ [{ w with remaining_attempts := w.remaining_attempts - 1 }] ≠ rest := by
    intro hcontra
    have := congrArg List.length hcontra
    simp at this
  cases hd : handleRetryableError cfg (cfg.is_throttling e) w.remaining_attempts
  · rw [stepItem_requeue cfg op w rest st e he hr hd]
    simp
  · rw [stepItem_terminal_dec cfg op w rest st e he hr hd]
    constructor
    · intro hx
      exact absurd hx.symm hne
    · intro hx
      exact absurd hx (by decide)

/-- Claim C3: for a work item failing with a retryable error, the strategy
NONE forces terminal failure regardless of throttling; otherwise a throttling
error is re-enqueued exactly when handle_throttling is set and more than one
attempt remains, and a non-throttling retryable error is re-enqueued exactly
when more than one attempt remains. -/
theorem C3_retry_decision (cfg : ProcessorConfig ε) (op : ℕ → α → ℤ → Except ε β)
    (e : ε) (w : WorkItem α) (rest : List (WorkItem α)) (st : RunState β ε)
    (herr : op w.index w.data w.remaining_attempts = Except.error e)
    (hret : cfg.retryable e = true) :
    (cfg.retry_strategy = RetryStrategy.none → (stepItem cfg op w rest st).1 = rest) ∧
    (cfg.retry_strategy ≠ RetryStrategy.none → cfg.is_throttling e = true →
      ((stepItem cfg op w rest st).1 =
          rest ++ [{ w with remaining_attempts := w.remaining_attempts - 1 }] ↔
        cfg.handle_throttling = true ∧ 1 < w.remaining_attempts)) ∧
    (cfg.retry_strategy ≠ RetryStrategy.none → cfg.is_throttling e = false →
      ((stepItem cfg op w rest st).1 =
          rest ++ [{ w with remaining_attempts := w.remaining_attempts - 1 }] ↔
        1 < w.remaining_attempts)) := by
  refine ⟨?_, ?_, ?_⟩
  · intro hnone
    rw [stepItem_terminal_dec cfg op w rest st e herr hret
      (handleRetryableError_of_none hnone)]
  · intro hs ht
    rw [stepItem_requeue_iff cfg op w rest st e herr hret, ht,
      handleRetryableError_requeue_iff hs, shouldRetry_true_iff]
  · intro hs ht
    rw [stepItem_requeue_iff cfg op w rest st e herr hret, ht,
      handleRetryableError_requeue_iff hs, shouldRetry_false_iff]

/-- Witness for C3: a throttling-free retryable failure with three remaining
attempts is re-enqueued with two remaining attempts. -/
theorem C3_witness :
    (stepItem witCfg (fun _ _ _ => (Except.error () : Except Unit ℕ))
        { index := 0, data := (0 : ℕ), remaining_attempts := 3 } [] wit0).1 =
      [{ index := 0, data := (0 : ℕ), remaining_attempts := 2 }] := by
  have h := (C3_retry_decision witCfg (fun _ _ _ => (Except.error () : Except Unit ℕ)) ()
    { index := 0, data := (0 : ℕ), remaining_attempts := 3 } [] wit0 rfl rfl).2.2
  have h2 := (h (by decide) rfl).mpr (by decide)
  calc (stepItem witCfg (fun _ _ _ => (Except.error () : Except Unit ℕ))
        { index := 0, data := (0 : ℕ), remaining_attempts := 3 } [] wit0).1
      = [] ++ [{ index := 0, data := (0 : ℕ), remaining_attempts := (3 : ℤ) - 1 }] := h2
    _ = [{ index := 0, data := (0 : ℕ), remaining_attempts := 2 }] := by decide

/-- Claim C6 (checked at the failing input): a bulk response with one
non-ignorable per-item error makes _parse_bulk_errors raise, but the batch
exception it raises is a plain Exception and not a ClientError, so under the
configuration ingest builds (default retryable_exceptions) the scheduler
records the batch as a terminal failure at the first attempt: nothing is
re-enqueued and total_retried stays 0 even though max_attempts = 5 leaves
four retries available. -/
theorem C6_bulk_error_not_retried :
    (∃ msg, parseBulkErrors c6Response 1 = Except.error msg) ∧
    (process (ingestConfig 5) (fun _ _ _ => processBatchModel c6Response 1)
        (fun _ => false) (fun _ => 0) [c6Response]).total_retried = 0 ∧
    (process (ingestConfig 5) (fun _ _ _ => processBatchModel c6Response 1)
        (fun _ => false) (fun _ => 0) [c6Response]).total_failed = 1 ∧
    (process (ingestConfig 5) (fun _ _ _ => processBatchModel c6Response 1)
        (fun _ => false) (fun _ => 0) [c6Response]).results =
      [some (Except.error (IngestError.batchError "Batch 1 has errors"))] ∧
    1 < (ingestConfig 5).max_attempts := by
  refine ⟨⟨"Batch 1 has errors", rfl⟩, rfl, rfl, rfl, by decide⟩

end SemanticEntityMatching
